import Mathlib

/-!
# oracledbbeat: row decoding, the target worker and the scheduler fan-out

A shallow embedding of `beater/oracledbbeat.go` and `config/config.go`.

* Go maps (`common.MapStr`, `map[string]*interface{}`) are association lists
  with map-assignment semantics (`GoMap.set` overwrites an existing key).
* A Go `interface{}` value is a `Value`: its dynamic type is the constructor.
* The collaborators of the beat (the database, the publisher client, the clock,
  the process environment) are explicit: what they answer is an `Env`, what the
  code did to them is recorded in a `World`.
* `strconv.ParseInt` and `strconv.ParseFloat` belong to the Go standard library;
  the code of the beat is embedded over any `Strconv`, and `goStrconv` is a
  model of the two functions used where a concrete text has to be decoded.
-/

namespace Oracledbbeat

/-! ## Go values -/

/-- A Go `float64`, by its IEEE-754 binary64 bit pattern (`math.Float64bits`). -/
structure F64 where
  bits : Nat
deriving DecidableEq, Repr

/-- A Go `error`, by its message. -/
abbrev Error := String

/-- The dynamic value of a Go `interface{}`. A Go `string` is a Lean `String`; a
`[]byte` is represented by the string holding the same bytes; a `time.Time` and
a `common.Time` are instants (nanoseconds). -/
inductive Value where
  | nil
  | string (s : String)
  | int64 (n : Int)
  | int32 (n : Int)
  | int (n : Int)
  | float64 (f : F64)
  | bool (b : Bool)
  | bytes (b : String)
  | time (t : Int)
  | commonTime (t : Int)
deriving DecidableEq, Repr

/-! ## Go maps with string keys -/

/-- A Go `map[string]α`: the entries, each key at most once. -/
abbrev GoMap (α : Type) := List (String × α)

namespace GoMap

variable {α : Type}

/-- The Go expression `m[k]` with the comma-ok form: the value under `k`, if any. -/
def get : GoMap α → String → Option α
  | [], _ => none
  | (k', v') :: m, k => if k' = k then some v' else get m k

/-- The Go statement `m[k] = v`: overwrite the entry of `k`, or add one. -/
def set : GoMap α → String → α → GoMap α
  | [], k, v => [(k, v)]
  | (k', v') :: m, k, v => if k' = k then (k', v) :: m else (k', v') :: set m k v

/-- The keys of the map. -/
def keys (m : GoMap α) : List String := m.map Prod.fst

end GoMap

/-- The libbeat event type `common.MapStr`, a `map[string]interface{}`. -/
abbrev MapStr := GoMap Value

/-! ## strconv -/

/-- The two functions of Go's `strconv` that the beat calls:
`ParseInt s` is `strconv.ParseInt(s, 10, 64)` and `ParseFloat s` is
`strconv.ParseFloat(s, 64)`; `none` stands for a non-nil `err`. -/
structure Strconv where
  ParseInt : String → Option Int
  ParseFloat : String → Option F64

/-- The value of a decimal digit byte. -/
def digitVal (c : Char) : Option Nat :=
  if 48 ≤ c.toNat ∧ c.toNat ≤ 57 then some (c.toNat - 48) else none

/-- The digit loop of `strconv.ParseUint(s, 10, 64)`: `none` on a byte that is not a
decimal digit. The value is not cut at `1<<64 - 1`; `goParseInt` checks the range. -/
def parseDigits : List Char → Nat → Option Nat
  | [], acc => some acc
  | c :: cs, acc =>
    match digitVal c with
    | some d => parseDigits cs (acc * 10 + d)
    | none => none

/-- Go's `strconv.ParseUint(s, 10, 64)` before the range check. -/
def goParseUint (s : List Char) : Option Nat :=
  match s with
  | [] => none
  | _ => parseDigits s 0

/-- Go's `strconv.ParseInt(s, 10, 64)`: an optional sign, then decimal digits only;
an error (`none`) for the empty string, for any other byte, and for a value outside
`-1<<63 .. 1<<63 - 1`. -/
def goParseInt (s : String) : Option Int :=
  match s.data with
  | [] => none
  | c :: cs =>
    let neg := decide (c = '-')
    let rest := if c = '+' ∨ c = '-' then cs else c :: cs
    match goParseUint rest with
    | none => none
    | some un =>
      let cutoff : Nat := 2 ^ 63
      if !neg && decide (cutoff ≤ un) then none
      else if neg && decide (cutoff < un) then none
      else some (if neg then -(un : Int) else (un : Int))

/-- ASCII lower-casing of a byte, as `strconv` does it. -/
def lower (c : Char) : Char :=
  if 65 ≤ c.toNat ∧ c.toNat ≤ 90 then Char.ofNat (c.toNat + 32) else c

/-- Go's `strconv.equalIgnoreCase`. -/
def equalIgnoreCase (s t : List Char) : Bool :=
  decide (s.map lower = t.map lower)

/-- The bit pattern of `+Inf`. -/
def F64.infBits : Nat := 2047 * 2 ^ 52

/-- The sign bit of a binary64. -/
def F64.signBit : Nat := 2 ^ 63

/-- The bit pattern Go's `math.NaN()` returns. -/
def F64.nanBits : Nat := 0x7FF8000000000001

/-- Go's `strconv.special`: the texts `inf`, `infinity` (with an optional sign) and
`nan`, in any letter case. -/
def special (s : List Char) : Option F64 :=
  match s with
  | [] => none
  | c :: _ =>
    if c = '+' then
      if equalIgnoreCase s "+inf".data || equalIgnoreCase s "+infinity".data
      then some ⟨F64.infBits⟩ else none
    else if c = '-' then
      if equalIgnoreCase s "-inf".data || equalIgnoreCase s "-infinity".data
      then some ⟨F64.signBit + F64.infBits⟩ else none
    else if c = 'n' ∨ c = 'N' then
      if equalIgnoreCase s "nan".data then some ⟨F64.nanBits⟩ else none
    else if c = 'i' ∨ c = 'I' then
      if equalIgnoreCase s "inf".data || equalIgnoreCase s "infinity".data
      then some ⟨F64.infBits⟩ else none
    else none

/-- What the mantissa loop of `strconv.readFloat` has read. -/
structure Mantissa where
  sawdot : Bool
  sawdigits : Bool
  mant : Nat
  frac : Nat
  rest : List Char
deriving DecidableEq, Repr

/-- The mantissa loop of `strconv.readFloat`: decimal digits with at most one
point; `none` on a second point. `mant` is the integer the digits spell, `frac`
the number of digits after the point, `rest` what follows the mantissa. -/
def readMantissa : List Char → Bool → Bool → Nat → Nat → Option Mantissa
  | [], sawdot, sawdigits, mant, frac => some ⟨sawdot, sawdigits, mant, frac, []⟩
  | c :: cs, sawdot, sawdigits, mant, frac =>
    if c = '.' then
      if sawdot then none else readMantissa cs true sawdigits mant frac
    else
      match digitVal c with
      | some d => readMantissa cs sawdot true (mant * 10 + d) (if sawdot then frac + 1 else frac)
      | none => some ⟨sawdot, sawdigits, mant, frac, c :: cs⟩

/-- The exponent digit loop of `strconv.readFloat`: the exponent stops growing
once it has reached 10000; `none` when a byte is not a digit (the numeral must end
with its exponent). -/
def readExpDigits : List Char → Nat → Option Nat
  | [], e => some e
  | c :: cs, e =>
    match digitVal c with
    | some d => readExpDigits cs (if e < 10000 then e * 10 + d else e)
    | none => none

/-- The optional exponent of `strconv.readFloat`: nothing, or `e`/`E`, an optional
sign and at least one digit, up to the end of the text. -/
def readExponent (s : List Char) : Option Int :=
  match s with
  | [] => some 0
  | c :: cs =>
    if c = 'e' ∨ c = 'E' then
      match cs with
      | [] => none
      | c1 :: cs1 =>
        let neg := decide (c1 = '-')
        let ds := if c1 = '+' ∨ c1 = '-' then cs1 else c1 :: cs1
        match ds with
        | [] => none
        | _ =>
          match readExpDigits ds 0 with
          | some e => some (if neg then -(e : Int) else (e : Int))
          | none => none
    else none

/-- The number of binary digits of `n`, by halving at most `fuel` times. -/
def bitLen : Nat → Nat → Nat
  | 0, _ => 0
  | fuel + 1, n => if n = 0 then 0 else bitLen fuel (n / 2) + 1

/-- The integer nearest to `a / b`, ties to even. -/
def roundHalfEven (a b : Nat) : Nat :=
  let q := a / b
  let r := a % b
  if b < 2 * r ∨ (2 * r = b ∧ q % 2 = 1) then q + 1 else q

/-- The binary64 nearest to the positive rational `num / den` (ties to even), as
the bit pattern without the sign; a result of `F64.infBits` or more is an overflow. -/
def roundBits (num den : Nat) : Nat :=
  let e0 : Int := (bitLen num num : Int) - (bitLen den den : Int)
  let ge : Bool :=
    if 0 ≤ e0 then decide (den * 2 ^ e0.toNat ≤ num) else decide (den ≤ num * 2 ^ (-e0).toNat)
  let e : Int := if ge then e0 else e0 - 1
  let eb : Int := max e (-1022)
  let p : Int := eb - 52
  let m : Nat :=
    if 0 ≤ p then roundHalfEven num (den * 2 ^ p.toNat)
    else roundHalfEven (num * 2 ^ (-p).toNat) den
  (eb + 1022).toNat * 2 ^ 52 + m

/-- Go's `strconv.ParseFloat(s, 64)` for the decimal numerals and special values
it has always accepted: `[+-]` digits with at most one point and at least one
digit, an optional exponent; the value is the nearest binary64, and a numeral
that rounds beyond the largest finite binary64 is a range error (`none`), as is
any other text. (Hexadecimal mantissas and digit-separating underscores, which
later Go releases accept as well, are not modelled.) -/
def goParseFloat (s : String) : Option F64 :=
  match special s.data with
  | some f => some f
  | none =>
    match s.data with
    | [] => none
    | c :: cs =>
      let neg := decide (c = '-')
      let body := if c = '+' ∨ c = '-' then cs else c :: cs
      match readMantissa body false false 0 0 with
      | none => none
      | some mt =>
        if !mt.sawdigits then none
        else
          match readExponent mt.rest with
          | none => none
          | some e =>
            let sign := if neg then F64.signBit else 0
            if mt.mant = 0 then some ⟨sign⟩
            else
              let ex : Int := e - (mt.frac : Int)
              let bits :=
                if 0 ≤ ex then roundBits (mt.mant * 10 ^ ex.toNat) 1
                else roundBits mt.mant (10 ^ (-ex).toNat)
              if F64.infBits ≤ bits then none else some ⟨sign + bits⟩

/-- Go's standard library, for the two functions the beat calls. -/
def goStrconv : Strconv := ⟨goParseInt, goParseFloat⟩

/-! ## The beat and its collaborators -/

/-- The Go struct `metric`: a named query. -/
structure metric where
  name : String
  sql : String
deriving DecidableEq, Repr

/-- The package variable `metrics`: the definition of all metrics of the beat. -/
def metrics : List metric :=
  [{ name := "oracledb_status",
     sql := "SELECT (SELECT dbid FROM v$database) dbid, instance_name, status FROM v$instance" }]

/-- One call of a logging function, by its call site. -/
inductive LogEntry where
  /-- The call `logp.Err("Failed to convert column to golang datatype. Key:", k, "- Value:", val)`. -/
  | convertFailed (k : String) (val : Value)
  /-- The call `logp.Err("Error: failed publishing event.")`. -/
  | publishFailed
  /-- The call `logp.Info("Successful published event:", row)`. -/
  | publishedInfo (row : MapStr)
  /-- The call `fmt.Println("INFO: Successful published event:", row)`. -/
  | publishedStdout (row : MapStr)
  /-- The call `logp.Err("Error during parseRow function:", err)`. -/
  | parseRowFailed (err : Error)
  /-- The call `logp.Err("Error processing metric ...", err)` with the name of the metric. -/
  | metricFailed (name : String) (err : Error)
deriving DecidableEq, Repr

/-- What a successful `db.Query` gives: the column names of `queryResult.Columns()`
and, for each row that `queryResult.Next()` reaches, the values the driver
delivers to `Scan`, or the error of `Scan`. -/
structure QueryResult where
  columns : List String
  rows : List (Except Error (List Value))

/-- What the code has done to its collaborators so far. -/
structure World where
  /-- The events passed to `bt.client.PublishEvent`, in call order. -/
  published : List MapStr
  /-- The diagnostics written, in call order. -/
  log : List LogEntry
  /-- The query texts passed to `db.Query`, in call order. -/
  queried : List String
  /-- The number of calls of `time.Now()`. -/
  nowCalls : Nat

/-- What the collaborators answer. -/
structure Env where
  /-- The standard library parsers. -/
  strconv : Strconv
  /-- The result of the call of `PublishEvent` that has `n` calls before it. -/
  publishEvent : Nat → MapStr → Bool
  /-- The reading of the call of `time.Now()` that has `n` calls before it. -/
  now : Nat → Int
  /-- The result of the call of `db.Query` that has `n` calls before it. -/
  query : Nat → String → Except Error QueryResult
  /-- The order in which a `range` statement visits the entries of a map: Go
  leaves it unspecified. -/
  rangeOrder : GoMap (Option Value) → GoMap (Option Value)
  /-- A `range` statement visits every entry once. -/
  rangeOrder_perm : ∀ m, (rangeOrder m).Perm m

/-! ## parseRow -/

/-- The body of the loop `for k, v := range rowData` of `parseRow`, on the event
under construction and the log. A `none` is a nil pointer, `some val` a pointer
to an interface holding `val`. -/
def parseColumn (sc : Strconv) (k : String) (v : Option Value)
    (st : MapStr × List LogEntry) : MapStr × List LogEntry :=
  match v with
  | none => st
  | some val =>
    match val with
    | Value.string s =>
      match sc.ParseInt s with
      | some vv => (GoMap.set st.1 k (Value.int64 vv), st.2)
      | none =>
        match sc.ParseFloat s with
        | some vv => (GoMap.set st.1 k (Value.float64 vv), st.2)
        | none => (GoMap.set st.1 k (Value.string s), st.2)
    | Value.int64 n => (GoMap.set st.1 k (Value.int64 n), st.2)
    | Value.int32 n => (GoMap.set st.1 k (Value.int32 n), st.2)
    | Value.int n => (GoMap.set st.1 k (Value.int n), st.2)
    | Value.bytes b => (GoMap.set st.1 k (Value.string b), st.2)
    | Value.time t => (GoMap.set st.1 k (Value.commonTime t), st.2)
    | other => (st.1, st.2 ++ [LogEntry.convertFailed k other])

/-- The loop `for k, v := range rowData` of `parseRow`, over the entries in the
order they are visited. -/
def parseColumns (sc : Strconv) (rowData : GoMap (Option Value))
    (st : MapStr × List LogEntry) : MapStr × List LogEntry :=
  rowData.foldl (fun st kv => parseColumn sc kv.1 kv.2 st) st

/-- The method `parseRow`: decode the columns into `row`, publish it, log the
outcome, return `nil`. -/
def parseRow (env : Env) (rowData : GoMap (Option Value)) (row : MapStr) (_m : metric)
    (w : World) : Option Error × World :=
  let st := parseColumns env.strconv (env.rangeOrder rowData) (row, w.log)
  let ok := env.publishEvent w.published.length st.1
  let w1 : World := { w with published := w.published ++ [st.1], log := st.2 }
  if !ok then
    (none, { w1 with log := w1.log ++ [LogEntry.publishFailed] })
  else
    (none, { w1 with log := w1.log ++ [LogEntry.publishedInfo st.1, LogEntry.publishedStdout st.1] })

/-! ## processMetric and dbworker -/

/-- The binding loop of `processMetric`: `rowData[col] = new(interface{})` and
`rowVars = append(rowVars, rowData[col])` for each column. A pointer is the index
of its cell in `rowVars`; a column name met again is bound to the newer cell. -/
def bindColumns (colNames : List String) : GoMap Nat :=
  colNames.enum.foldl (fun rowData ic => GoMap.set rowData ic.2 ic.1) []

/-- The call `queryResult.Scan(rowVars...)` with `n` destinations: the error of
the row, an error when the row does not have `n` values, or else the new
contents of the cells. -/
def scan (row : Except Error (List Value)) (n : Nat) : Except Error (List Value) :=
  match row with
  | Except.error e => Except.error e
  | Except.ok vals =>
    if vals.length = n then Except.ok vals
    else Except.error "sql: wrong number of destination arguments in Scan"

/-- The map `rowData` as `parseRow` reads it: every pointer is non-nil and points
to its cell. -/
def deref (rowData : GoMap Nat) (cells : List Value) : GoMap (Option Value) :=
  rowData.map (fun ki => (ki.1, some (cells.getD ki.2 Value.nil)))

/-- The loop `for queryResult.Next()` of `processMetric`. -/
def processRows (env : Env) (m : metric) (rowData : GoMap Nat) (nVars : Nat) :
    List (Except Error (List Value)) → World → Option Error × World
  | [], w => (none, w)
  | r :: rs, w =>
    match scan r nVars with
    | Except.error e => (some e, w)
    | Except.ok cells =>
      let row : MapStr :=
        [("@timestamp", Value.commonTime (env.now w.nowCalls)), ("type", Value.string m.name)]
      let w1 : World := { w with nowCalls := w.nowCalls + 1 }
      let res := parseRow env (deref rowData cells) row m w1
      let w2 : World :=
        match res.1 with
        | some e => { res.2 with log := res.2.log ++ [LogEntry.parseRowFailed e] }
        | none => res.2
      processRows env m rowData nVars rs w2

/-- The method `processMetric`: run the query of `m`, decode and publish every row. -/
def processMetric (env : Env) (m : metric) (w : World) : Option Error × World :=
  let w1 : World := { w with queried := w.queried ++ [m.sql] }
  match env.query w.queried.length m.sql with
  | Except.error e => (some e, w1)
  | Except.ok queryResult =>
    processRows env m (bindColumns queryResult.columns) queryResult.columns.length
      queryResult.rows w1

/-- The loop `for _, m := range metrics` of `dbworker`. -/
def dbworkerLoop (env : Env) : List metric → World → World
  | [], w => w
  | m :: ms, w =>
    let res := processMetric env m w
    let w1 : World :=
      match res.1 with
      | some e => { res.2 with log := res.2.log ++ [LogEntry.metricFailed m.name e] }
      | none => res.2
    dbworkerLoop env ms w1

/-- The method `dbworker` over the catalog `catalog` (the package variable
`metrics` in the beat). -/
def dbworker (env : Env) (catalog : List metric) (w : World) : Option Error × World :=
  (none, dbworkerLoop env catalog w)

/-! ## Configuration and gather -/

/-- The Go struct `config.Config`. `Period` is a `time.Duration` in nanoseconds;
`OciURLs` is a slice, `none` being the nil slice and `some []` a slice of length
zero that is not nil. -/
structure Config where
  Period : Nat
  OciURLs : Option (List String)
deriving DecidableEq, Repr

/-- The package variable `config.DefaultConfig`. -/
def DefaultConfig : Config := { Period := 10 * 1000000000, OciURLs := none }

/-- Go's `append(s, x)` on a slice that may be nil. -/
def goAppend (s : Option (List String)) (x : String) : Option (List String) :=
  match s with
  | none => some [x]
  | some xs => some (xs ++ [x])

/-- The elements a `range` over a slice visits: none for the nil slice. -/
def sliceElems (s : Option (List String)) : List String :=
  match s with
  | none => []
  | some xs => xs

/-- The process environment. -/
abbrev Environ := GoMap String

/-- Go's `os.Getenv`: the empty string for a variable that is not set. -/
def Getenv (environ : Environ) (key : String) : String :=
  match GoMap.get environ key with
  | some v => v
  | none => ""

/-- Go's `os.Setenv`. -/
def Setenv (environ : Environ) (key value : String) : Environ :=
  GoMap.set environ key value

/-- What a call of `gather` leaves behind. -/
structure GatherResult where
  /-- The returned error. -/
  err : Option Error
  /-- The field `bt.config` after the call. -/
  config : Config
  /-- The process environment after the call. -/
  environ : Environ
  /-- The argument of every goroutine started by `go func(ociURL string)`, in order. -/
  launched : List String
deriving DecidableEq, Repr

/-- The method `gather`: set `NLS_LANG`, fall back to `DATA_SOURCE_NAME` when
`bt.config.OciURLs == nil`, start one worker goroutine for each element. -/
def gather (config : Config) (environ : Environ) : GatherResult :=
  let environ1 := Setenv environ "NLS_LANG" "AMERICAN_AMERICA.AL32UTF8"
  let config1 : Config :=
    if config.OciURLs = none then
      { config with OciURLs := goAppend config.OciURLs (Getenv environ1 "DATA_SOURCE_NAME") }
    else config
  { err := none, config := config1, environ := environ1,
    launched := sliceElems config1.OciURLs }

/-! ## Specification vocabulary -/

/-- What the type switch of `parseRow` assigns to the event for one entry of
`rowData`, `none` when it assigns nothing (a nil pointer, or the `default` case). -/
def stored (sc : Strconv) (v : Option Value) : Option Value :=
  match v with
  | none => none
  | some (Value.string s) =>
    match sc.ParseInt s with
    | some vv => some (Value.int64 vv)
    | none =>
      match sc.ParseFloat s with
      | some vv => some (Value.float64 vv)
      | none => some (Value.string s)
  | some (Value.int64 n) => some (Value.int64 n)
  | some (Value.int32 n) => some (Value.int32 n)
  | some (Value.int n) => some (Value.int n)
  | some (Value.bytes b) => some (Value.string b)
  | some (Value.time t) => some (Value.commonTime t)
  | some _ => none

/-- The header `processMetric` gives every event: the capture time and the name of
the metric. -/
def header (t : Int) (m : metric) : MapStr :=
  [("@timestamp", Value.commonTime t), ("type", Value.string m.name)]

/-- The event `parseRow` publishes: `row` after the loop over `rowData`. -/
def decodeRow (env : Env) (rowData : GoMap (Option Value)) (row : MapStr) : MapStr :=
  (parseColumns env.strconv (env.rangeOrder rowData) (row, [])).1

/-- Collaborators for concrete runs: Go's `strconv`, a clock whose reading is the
number of earlier readings, maps visited in the order of their entries, and the
given publisher and database. -/
def mkEnv (publishEvent : Nat → MapStr → Bool)
    (query : Nat → String → Except Error QueryResult) : Env :=
  { strconv := goStrconv
    publishEvent := publishEvent
    now := fun n => (n : Int)
    query := query
    rangeOrder := fun m => m
    rangeOrder_perm := fun m => List.Perm.refl m }

/-- A publisher that accepts every event and a database that fails every query. -/
def plainEnv : Env :=
  mkEnv (fun _ _ => true) (fun _ _ => Except.error "ORA-00942: table or view does not exist")

/-- The state before the first call: nothing published, logged, queried or timed. -/
def World.start : World := { published := [], log := [], queried := [], nowCalls := 0 }

/-- In the words of the specification, a decimal integer: an optional sign, then one or
more decimal digits and nothing else. -/
def isDecimalInteger (s : String) : Bool :=
  match s.data with
  | [] => false
  | c :: cs =>
    let ds := if c = '+' ∨ c = '-' then cs else c :: cs
    !ds.isEmpty && ds.all (fun d => (digitVal d).isSome)

/-- In the words of the specification, a decimal floating-point numeral: an optional
sign, decimal digits with at most one decimal point and at least one digit, then
an optional exponent (`e` or `E`, an optional sign, one or more decimal digits). -/
def isDecimalFloat (s : String) : Bool :=
  match s.data with
  | [] => false
  | c :: cs =>
    let body := if c = '+' ∨ c = '-' then cs else c :: cs
    match readMantissa body false false 0 0 with
    | none => false
    | some mt => mt.sawdigits && (readExponent mt.rest).isSome

/-- The representations the specification lists for a raw value: text, integer,
float, byte sequence, timestamp. -/
def Value.supported : Value → Bool
  | Value.string _ => true
  | Value.int64 _ => true
  | Value.int32 _ => true
  | Value.int _ => true
  | Value.float64 _ => true
  | Value.bytes _ => true
  | Value.time _ => true
  | _ => false

/-- The listed representations other than float: text, integer, byte sequence,
timestamp. -/
def Value.plain : Value → Bool
  | Value.string _ => true
  | Value.int64 _ => true
  | Value.int32 _ => true
  | Value.int _ => true
  | Value.bytes _ => true
  | Value.time _ => true
  | _ => false

/-- The metric of the beat, `metrics[0]`. -/
def statusMetric : metric :=
  { name := "oracledb_status",
    sql := "SELECT (SELECT dbid FROM v$database) dbid, instance_name, status FROM v$instance" }

/-- The event `processMetric` builds from the cells of one scanned row: the header
with the capture time `t`, then the decoded columns. -/
def rowEvent (env : Env) (m : metric) (colNames : List String) (t : Int)
    (cells : List Value) : MapStr :=
  decodeRow env (deref (bindColumns colNames) cells) (header t m)

/-- A database whose every query returns the given result. -/
def constQuery (qr : QueryResult) : Nat → String → Except Error QueryResult :=
  fun _ _ => Except.ok qr

/-- The result set of the end-to-end scenario: one row, `DBID` the text `123` and
`STATUS` the text `OPEN`. -/
def statusResult : QueryResult :=
  { columns := ["DBID", "STATUS"],
    rows := [Except.ok [Value.string "123", Value.string "OPEN"]] }

/-- A result set whose only column is named `type`. -/
def typeResult : QueryResult :=
  { columns := ["type"], rows := [Except.ok [Value.string "custom"]] }

/-- A publisher that refuses every second event, the first included. -/
def flakyPublish : Nat → MapStr → Bool := fun n _ => n % 2 == 1

/-- Two rows of cells for the columns `DBID` and `STATUS`. -/
def twoRows : List (List Value) :=
  [[Value.string "1", Value.string "OPEN"], [Value.string "2", Value.string "MOUNTED"]]

/-- The result set of the two rows, both of which scan. -/
def twoRowsResult : QueryResult :=
  { columns := ["DBID", "STATUS"], rows := twoRows.map Except.ok }

/-- A catalog of two metrics. -/
def twoMetrics : List metric :=
  [{ name := "sessions", sql := "SELECT count(*) n FROM v$session" }, statusMetric]

/-- A database on which the first query fails and every later one returns the
result set of the scenario. -/
def firstFails : Nat → String → Except Error QueryResult :=
  fun n _ => if n = 0 then Except.error "ORA-00942: table or view does not exist"
    else Except.ok statusResult

/-! ## Go maps: assignment and lookup -/

namespace GoMap

variable {α : Type}

theorem get_set_self (m : GoMap α) (k : String) (v : α) : get (set m k v) k = some v := by
  induction m with
  | nil => simp [set, get]
  | cons p m ih =>
    obtain ⟨k', v'⟩ := p
    by_cases h : k' = k
    · simp [set, get, h]
    · simp [set, get, h, ih]

theorem get_set_ne (m : GoMap α) (k k' : String) (v : α) (h : k ≠ k') :
    get (set m k v) k' = get m k' := by
  induction m with
  | nil => simp [set, get, h]
  | cons p m ih =>
    obtain ⟨k0, v0⟩ := p
    by_cases h0 : k0 = k
    · subst h0
      simp [set, get, h]
    · by_cases h1 : k0 = k'
      · subst h1
        simp [set, get, h0]
      · simp [set, get, h0, h1, ih]

theorem keys_set (m : GoMap α) (k : String) (v : α) :
    keys (set m k v) = if k ∈ keys m then keys m else keys m ++ [k] := by
  induction m with
  | nil => simp [set, keys]
  | cons p m ih =>
    obtain ⟨k0, v0⟩ := p
    by_cases h0 : k0 = k
    · subst h0
      simp [set, keys]
    · have h0' : ¬ k = k0 := fun h => h0 h.symm
      simp only [keys] at ih
      by_cases hk : k ∈ List.map Prod.fst m
      · simp [set, keys, h0, h0', hk, ih]
      · simp [set, keys, h0, h0', hk, ih]

theorem get_eq_none_iff (m : GoMap α) (k : String) : get m k = none ↔ k ∉ keys m := by
  induction m with
  | nil => simp [get, keys]
  | cons p m ih =>
    obtain ⟨k0, v0⟩ := p
    by_cases h0 : k0 = k
    · subst h0
      simp [get, keys]
    · have h0' : ¬ k = k0 := fun h => h0 h.symm
      simp only [keys] at ih
      simp [get, keys, h0, h0', ih]

theorem get_of_mem (m : GoMap α) (k : String) (v : α) (hnd : (keys m).Nodup)
    (hmem : (k, v) ∈ m) : get m k = some v := by
  induction m with
  | nil => simp at hmem
  | cons p m ih =>
    obtain ⟨k0, v0⟩ := p
    simp only [keys, List.map_cons, List.nodup_cons] at hnd
    rcases List.mem_cons.1 hmem with heq | hin
    · cases heq
      simp [get]
    · have hk : k ∈ List.map Prod.fst m := List.mem_map.2 ⟨(k, v), hin, rfl⟩
      have h0 : ¬ k0 = k := fun h => hnd.1 (h ▸ hk)
      simp only [get, h0, if_false]
      exact ih hnd.2 hin

theorem mem_of_get (m : GoMap α) (k : String) (v : α) (h : get m k = some v) : (k, v) ∈ m := by
  induction m with
  | nil => simp [get] at h
  | cons p m ih =>
    obtain ⟨k0, v0⟩ := p
    by_cases h0 : k0 = k
    · subst h0
      simp only [get, if_true, Option.some.injEq] at h
      subst h
      exact List.mem_cons_self _ _
    · simp only [get, h0, if_false] at h
      exact List.mem_cons_of_mem _ (ih h)

theorem get_perm {m m' : GoMap α} (hp : List.Perm m m') (hnd : (keys m).Nodup) (k : String) :
    get m k = get m' k := by
  have hnd' : (keys m').Nodup := (List.Perm.nodup_iff (hp.map Prod.fst)).1 hnd
  cases h : get m k with
  | some v =>
    have h1 : (k, v) ∈ m' := hp.subset (mem_of_get m k v h)
    exact (get_of_mem m' k v hnd' h1).symm
  | none =>
    have h1 : k ∉ keys m := (get_eq_none_iff m k).1 h
    have h2 : k ∉ keys m' := fun hin => h1 ((hp.map Prod.fst).symm.subset hin)
    exact ((get_eq_none_iff m' k).2 h2).symm

end GoMap

/-! ## The model of strconv on known values -/

/-- The model of `strconv.ParseInt` on texts whose Go result is known. -/
theorem goParseInt_examples :
    goParseInt "42" = some 42 ∧ goParseInt "+7" = some 7 ∧ goParseInt "-15" = some (-15) ∧
    goParseInt "9223372036854775807" = some 9223372036854775807 ∧
    goParseInt "9223372036854775808" = none ∧
    goParseInt "-9223372036854775808" = some (-9223372036854775808) ∧
    goParseInt "" = none ∧ goParseInt "-" = none ∧ goParseInt " 42" = none ∧
    goParseInt "4_2" = none ∧ goParseInt "3.14" = none ∧ goParseInt "OPEN" = none := by
  decide

/-- The model of `strconv.ParseFloat` on texts whose Go result is known. -/
theorem goParseFloat_examples :
    goParseFloat "3.14" = some ⟨0x40091EB851EB851F⟩ ∧
    goParseFloat "0.1" = some ⟨0x3FB999999999999A⟩ ∧
    goParseFloat "1" = some ⟨0x3FF0000000000000⟩ ∧
    goParseFloat "-2.5e-1" = some ⟨0xBFD0000000000000⟩ ∧
    goParseFloat "5e-324" = some ⟨1⟩ ∧
    goParseFloat "1.7976931348623157e308" = some ⟨0x7FEFFFFFFFFFFFFF⟩ ∧
    goParseFloat "1.7976931348623159e308" = none ∧
    goParseFloat "-0" = some ⟨0x8000000000000000⟩ ∧
    goParseFloat "nan" = some ⟨F64.nanBits⟩ ∧
    goParseFloat "-INF" = some ⟨0xFFF0000000000000⟩ ∧
    goParseFloat "" = none ∧ goParseFloat "." = none ∧ goParseFloat "1e" = none ∧
    goParseFloat "1.2.3" = none ∧ goParseFloat "OPEN" = none := by
  decide!

/-! ## The decoding loop -/

theorem parseColumn_fst (sc : Strconv) (k : String) (v : Option Value)
    (st : MapStr × List LogEntry) :
    (parseColumn sc k v st).1 =
      match stored sc v with
      | some x => GoMap.set st.1 k x
      | none => st.1 := by
  cases v with
  | none => simp [parseColumn, stored]
  | some val =>
    cases val <;> simp only [parseColumn, stored]
    case string s =>
      cases h1 : sc.ParseInt s with
      | some vv => simp
      | none =>
        cases h2 : sc.ParseFloat s with
        | some vv => simp
        | none => simp

theorem parseColumn_log (sc : Strconv) (k : String) (v : Option Value)
    (st : MapStr × List LogEntry) :
    ∃ l, (parseColumn sc k v st).2 = st.2 ++ l := by
  cases v with
  | none => exact ⟨[], by simp [parseColumn]⟩
  | some val =>
    cases val <;> simp only [parseColumn]
    case string s =>
      cases h1 : sc.ParseInt s with
      | some vv => exact ⟨[], by simp⟩
      | none =>
        cases h2 : sc.ParseFloat s with
        | some vv => exact ⟨[], by simp⟩
        | none => exact ⟨[], by simp⟩
    all_goals first
      | exact ⟨_, rfl⟩
      | exact ⟨[], (List.append_nil _).symm⟩

theorem parseColumns_nil (sc : Strconv) (st : MapStr × List LogEntry) :
    parseColumns sc [] st = st := rfl

theorem parseColumns_cons (sc : Strconv) (kv : String × Option Value)
    (l : GoMap (Option Value)) (st : MapStr × List LogEntry) :
    parseColumns sc (kv :: l) st = parseColumns sc l (parseColumn sc kv.1 kv.2 st) := rfl

theorem parseColumns_log (sc : Strconv) (l : GoMap (Option Value))
    (st : MapStr × List LogEntry) :
    ∃ d, (parseColumns sc l st).2 = st.2 ++ d := by
  induction l generalizing st with
  | nil => exact ⟨[], by simp [parseColumns_nil]⟩
  | cons kv l ih =>
    obtain ⟨d1, h1⟩ := parseColumn_log sc kv.1 kv.2 st
    obtain ⟨d2, h2⟩ := ih (parseColumn sc kv.1 kv.2 st)
    exact ⟨d1 ++ d2, by rw [parseColumns_cons, h2, h1, List.append_assoc]⟩

/-- The event does not depend on the log the loop starts with. -/
theorem parseColumns_fst_log (sc : Strconv) (l : GoMap (Option Value)) (row : MapStr)
    (log log' : List LogEntry) :
    (parseColumns sc l (row, log)).1 = (parseColumns sc l (row, log')).1 := by
  induction l generalizing row log log' with
  | nil => rfl
  | cons kv l ih =>
    rw [parseColumns_cons, parseColumns_cons]
    have e1 : parseColumn sc kv.1 kv.2 (row, log) =
        ((parseColumn sc kv.1 kv.2 (row, log)).1, (parseColumn sc kv.1 kv.2 (row, log)).2) := rfl
    have e2 : parseColumn sc kv.1 kv.2 (row, log') =
        ((parseColumn sc kv.1 kv.2 (row, log')).1, (parseColumn sc kv.1 kv.2 (row, log')).2) := rfl
    rw [e1, e2, parseColumn_fst, parseColumn_fst]
    exact ih _ _ _

/-- The field of the decoded event under any name: what the loop stored for the
column of that name, or else the field the event had before. -/
theorem parseColumns_get (sc : Strconv) (l : GoMap (Option Value))
    (st : MapStr × List LogEntry) (hnd : (GoMap.keys l).Nodup) (k : String) :
    GoMap.get (parseColumns sc l st).1 k =
      match GoMap.get l k with
      | some pv =>
        (match stored sc pv with
         | some x => some x
         | none => GoMap.get st.1 k)
      | none => GoMap.get st.1 k := by
  induction l generalizing st with
  | nil => simp [parseColumns_nil, GoMap.get]
  | cons kv l ih =>
    obtain ⟨k0, pv⟩ := kv
    simp only [GoMap.keys, List.map_cons, List.nodup_cons] at hnd
    rw [parseColumns_cons, ih _ hnd.2, parseColumn_fst]
    by_cases h0 : k0 = k
    · subst h0
      have hnone : GoMap.get l k0 = none := (GoMap.get_eq_none_iff l k0).2 hnd.1
      simp only [hnone, GoMap.get, if_true]
      cases hs : stored sc pv with
      | some x => simp [GoMap.get_set_self]
      | none => simp
    · simp only [GoMap.get, h0, if_false]
      have hrow : GoMap.get (match stored sc pv with
          | some x => GoMap.set st.1 k0 x
          | none => st.1) k = GoMap.get st.1 k := by
        cases hs : stored sc pv with
        | some x => simp [GoMap.get_set_ne _ _ _ _ h0]
        | none => simp
      rw [hrow]

/-- The names of the fields of the decoded event: those the event had before,
then every new name for which the loop stored a value. -/
theorem parseColumns_keys (sc : Strconv) (l : GoMap (Option Value))
    (st : MapStr × List LogEntry) (hnd : (GoMap.keys l).Nodup) :
    GoMap.keys (parseColumns sc l st).1 =
      GoMap.keys st.1 ++
        (l.filter (fun kv => (stored sc kv.2).isSome && decide (kv.1 ∉ GoMap.keys st.1))).map
          Prod.fst := by
  induction l generalizing st with
  | nil => simp [parseColumns_nil]
  | cons kv l ih =>
    obtain ⟨k0, pv⟩ := kv
    simp only [GoMap.keys, List.map_cons, List.nodup_cons] at hnd
    rw [parseColumns_cons, ih _ hnd.2, parseColumn_fst]
    cases hs : stored sc pv with
    | none => simp [List.filter_cons, hs]
    | some x =>
      simp only [GoMap.keys_set]
      have hcongr : ∀ ks : List String, (∀ a, a ∈ ks ↔ (a ∈ GoMap.keys st.1 ∨ a = k0)) →
          l.filter (fun kv => (stored sc kv.2).isSome && decide (kv.1 ∉ ks)) =
          l.filter (fun kv => (stored sc kv.2).isSome && decide (kv.1 ∉ GoMap.keys st.1)) := by
        intro ks hks
        apply List.filter_congr
        intro kv hkv
        have hne : kv.1 ≠ k0 := fun h => hnd.1 (h ▸ List.mem_map.2 ⟨kv, hkv, rfl⟩)
        have : (kv.1 ∈ ks) ↔ (kv.1 ∈ GoMap.keys st.1) := by
          rw [hks]; simp [hne]
        simp [this]
      by_cases hin : k0 ∈ GoMap.keys st.1
      · rw [if_pos hin, List.filter_cons]
        simp [hs, hin]
      · rw [if_neg hin, hcongr (GoMap.keys st.1 ++ [k0]) (by intro a; simp), List.filter_cons]
        simp [hs, hin]

/-! ## parseRow -/

/-- What `parseRow` does: it returns `nil`, publishes the decoded row and nothing
else, only adds to the log, and leaves the queries and the clock alone. -/
theorem parseRow_effect (env : Env) (rowData : GoMap (Option Value)) (row : MapStr)
    (m : metric) (w : World) :
    (parseRow env rowData row m w).1 = none ∧
    (parseRow env rowData row m w).2.published = w.published ++ [decodeRow env rowData row] ∧
    (parseRow env rowData row m w).2.queried = w.queried ∧
    (parseRow env rowData row m w).2.nowCalls = w.nowCalls ∧
    ∃ d, (parseRow env rowData row m w).2.log = w.log ++ d := by
  have hrow : (parseColumns env.strconv (env.rangeOrder rowData) (row, w.log)).1 =
      decodeRow env rowData row := parseColumns_fst_log _ _ _ _ _
  obtain ⟨d, hd⟩ := parseColumns_log env.strconv (env.rangeOrder rowData) (row, w.log)
  simp only [parseRow, hrow]
  cases hok : env.publishEvent w.published.length (decodeRow env rowData row) with
  | true => exact ⟨rfl, rfl, rfl, rfl, ⟨_, by simp [hd, List.append_assoc]; rfl⟩⟩
  | false => exact ⟨rfl, rfl, rfl, rfl, ⟨_, by simp [hd, List.append_assoc]; rfl⟩⟩

theorem rangeOrder_keys_nodup (env : Env) (rowData : GoMap (Option Value))
    (hnd : (GoMap.keys rowData).Nodup) : (GoMap.keys (env.rangeOrder rowData)).Nodup :=
  (List.Perm.nodup_iff ((env.rangeOrder_perm rowData).map Prod.fst)).2 hnd

/-- The field of the published event under any name, whatever the order in which
the map is visited. -/
theorem decodeRow_get (env : Env) (rowData : GoMap (Option Value)) (row : MapStr)
    (hnd : (GoMap.keys rowData).Nodup) (k : String) :
    GoMap.get (decodeRow env rowData row) k =
      match GoMap.get rowData k with
      | some pv =>
        (match stored env.strconv pv with
         | some x => some x
         | none => GoMap.get row k)
      | none => GoMap.get row k := by
  have hnd' := rangeOrder_keys_nodup env rowData hnd
  rw [decodeRow, parseColumns_get _ _ _ hnd' k,
    GoMap.get_perm (env.rangeOrder_perm rowData) hnd' k]

/-- The field names of the published event, up to the order of the entries. -/
theorem decodeRow_keys (env : Env) (rowData : GoMap (Option Value)) (row : MapStr)
    (hnd : (GoMap.keys rowData).Nodup) :
    List.Perm (GoMap.keys (decodeRow env rowData row))
      (GoMap.keys row ++
        (rowData.filter
          (fun kv => (stored env.strconv kv.2).isSome && decide (kv.1 ∉ GoMap.keys row))).map
          Prod.fst) := by
  have hnd' := rangeOrder_keys_nodup env rowData hnd
  rw [decodeRow, parseColumns_keys _ _ _ hnd']
  exact List.Perm.append_left _ (((env.rangeOrder_perm rowData).filter _).map _)

/-- C1. In `parseRow`, a column whose raw value is a text that `strconv.ParseInt`
(base 10, 64 bits) parses as the integer `n` is stored in the published event,
under the name of the column, as the `int64` number `n` and not as the text. -/
theorem parseRow_text_integer (env : Env) (rowData : GoMap (Option Value)) (row : MapStr)
    (m : metric) (w : World) (k s : String) (n : Int)
    (hnd : (GoMap.keys rowData).Nodup)
    (hcol : (k, some (Value.string s)) ∈ rowData)
    (hint : env.strconv.ParseInt s = some n) :
    ∃ ev, (parseRow env rowData row m w).2.published = w.published ++ [ev] ∧
      GoMap.get ev k = some (Value.int64 n) := by
  refine ⟨decodeRow env rowData row, (parseRow_effect env rowData row m w).2.1, ?_⟩
  rw [decodeRow_get env rowData row hnd k, GoMap.get_of_mem rowData k _ hnd hcol]
  simp [stored, hint]

theorem parseRow_text_integer_witness :
    (GoMap.keys ([("DBID", some (Value.string "42")), ("STATUS", some (Value.string "OPEN"))] :
      GoMap (Option Value))).Nodup ∧
    goStrconv.ParseInt "42" = some 42 ∧
    ∃ ev, (parseRow plainEnv
        [("DBID", some (Value.string "42")), ("STATUS", some (Value.string "OPEN"))]
        (header 7 ⟨"oracledb_status", "SELECT 1 FROM dual"⟩)
        ⟨"oracledb_status", "SELECT 1 FROM dual"⟩ World.start).2.published
          = World.start.published ++ [ev] ∧
      GoMap.get ev "DBID" = some (Value.int64 42) :=
  ⟨by decide, by decide,
    parseRow_text_integer plainEnv
      [("DBID", some (Value.string "42")), ("STATUS", some (Value.string "OPEN"))]
      (header 7 ⟨"oracledb_status", "SELECT 1 FROM dual"⟩)
      ⟨"oracledb_status", "SELECT 1 FROM dual"⟩ World.start "DBID" "42" 42
      (by decide) (by decide) (by decide)⟩

/-- An integer column (`int64`, `int32` or `int`) is stored unchanged. -/
theorem parseRow_integer_kept (env : Env) (rowData : GoMap (Option Value)) (row : MapStr)
    (m : metric) (w : World) (k : String) (v : Value)
    (hnd : (GoMap.keys rowData).Nodup)
    (hcol : (k, some v) ∈ rowData)
    (hv : (∃ n, v = Value.int64 n) ∨ (∃ n, v = Value.int32 n) ∨ (∃ n, v = Value.int n)) :
    ∃ ev, (parseRow env rowData row m w).2.published = w.published ++ [ev] ∧
      GoMap.get ev k = some v := by
  refine ⟨decodeRow env rowData row, (parseRow_effect env rowData row m w).2.1, ?_⟩
  rw [decodeRow_get env rowData row hnd k, GoMap.get_of_mem rowData k _ hnd hcol]
  rcases hv with ⟨n, rfl⟩ | ⟨n, rfl⟩ | ⟨n, rfl⟩ <;> simp [stored]

/-- C2. At a column whose raw value is a `float64` (here 1.5 under the name `PCT`)
the type switch of `parseRow` takes its `default` case: the published event is the
header alone, it has no field `PCT`, and the column is logged as failed. -/
theorem parseRow_float64_dropped :
    (parseRow plainEnv [("PCT", some (Value.float64 ⟨0x3FF8000000000000⟩))]
        (header 7 statusMetric) statusMetric World.start).2.published
      = [header 7 statusMetric] ∧
    GoMap.get (header 7 statusMetric) "PCT" = none ∧
    (parseRow plainEnv [("PCT", some (Value.float64 ⟨0x3FF8000000000000⟩))]
        (header 7 statusMetric) statusMetric World.start).2.log
      = [LogEntry.convertFailed "PCT" (Value.float64 ⟨0x3FF8000000000000⟩),
         LogEntry.publishedInfo (header 7 statusMetric),
         LogEntry.publishedStdout (header 7 statusMetric)] := by
  decide

/-- C5. At a column whose pointer holds nil, as `Scan` leaves it for a SQL NULL
(here `INSTANCE_NAME`), `parseRow` passes the guard `v == nil` and takes the
`default` case of the type switch: the column is left out of the event, the other
column is decoded and the event is published, but an error diagnostic is recorded
for the column. -/
theorem parseRow_null_logged :
    (parseRow plainEnv
        [("INSTANCE_NAME", some Value.nil), ("STATUS", some (Value.string "OPEN"))]
        (header 7 statusMetric) statusMetric World.start).2.published
      = [[("@timestamp", Value.commonTime 7), ("type", Value.string "oracledb_status"),
          ("STATUS", Value.string "OPEN")]] ∧
    LogEntry.convertFailed "INSTANCE_NAME" Value.nil ∈
      (parseRow plainEnv
        [("INSTANCE_NAME", some Value.nil), ("STATUS", some (Value.string "OPEN"))]
        (header 7 statusMetric) statusMetric World.start).2.log := by
  decide

/-- A column whose pointer is nil is skipped by the guard `v == nil`: nothing is
stored and nothing is logged for it. -/
theorem parseColumn_nil_pointer (sc : Strconv) (k : String) (st : MapStr × List LogEntry) :
    parseColumn sc k none st = st := rfl

/-- C6 (as amended). In `parseRow`, a column whose raw value is a text that
neither `strconv.ParseInt` (base 10, 64 bits) nor `strconv.ParseFloat` (64 bits)
accepts is stored in the published event, under the name of the column, as the
original text. -/
theorem parseRow_text_unparsed (env : Env) (rowData : GoMap (Option Value)) (row : MapStr)
    (m : metric) (w : World) (k s : String)
    (hnd : (GoMap.keys rowData).Nodup)
    (hcol : (k, some (Value.string s)) ∈ rowData)
    (hint : env.strconv.ParseInt s = none)
    (hfloat : env.strconv.ParseFloat s = none) :
    ∃ ev, (parseRow env rowData row m w).2.published = w.published ++ [ev] ∧
      GoMap.get ev k = some (Value.string s) := by
  refine ⟨decodeRow env rowData row, (parseRow_effect env rowData row m w).2.1, ?_⟩
  rw [decodeRow_get env rowData row hnd k, GoMap.get_of_mem rowData k _ hnd hcol]
  simp [stored, hint, hfloat]

theorem parseRow_text_unparsed_witness :
    goStrconv.ParseInt "ACTIVE" = none ∧ goStrconv.ParseFloat "ACTIVE" = none ∧
    ∃ ev, (parseRow plainEnv [("STATUS", some (Value.string "ACTIVE"))]
        (header 7 statusMetric) statusMetric World.start).2.published
          = World.start.published ++ [ev] ∧
      GoMap.get ev "STATUS" = some (Value.string "ACTIVE") :=
  ⟨by decide, by decide,
    parseRow_text_unparsed plainEnv [("STATUS", some (Value.string "ACTIVE"))]
      (header 7 statusMetric) statusMetric World.start "STATUS" "ACTIVE"
      (by decide) (by decide) (by decide) (by decide)⟩

/-- The text `Infinity` is neither a decimal integer nor a decimal floating-point
numeral, yet `strconv.ParseFloat` accepts it: `parseRow` stores the float `+Inf`
under the name of the column, not the text. -/
theorem parseRow_text_infinity_is_float :
    isDecimalInteger "Infinity" = false ∧ isDecimalFloat "Infinity" = false ∧
    (parseRow plainEnv [("STATUS", some (Value.string "Infinity"))]
        (header 7 statusMetric) statusMetric World.start).2.published
      = [[("@timestamp", Value.commonTime 7), ("type", Value.string "oracledb_status"),
          ("STATUS", Value.float64 ⟨F64.infBits⟩)]] ∧
    Value.float64 ⟨F64.infBits⟩ ≠ Value.string "Infinity" := by
  decide

/-! ## One unrecognized column -/

theorem stored_of_plain (sc : Strconv) (v : Value) (hv : v.plain = true) :
    (stored sc (some v)).isSome = true := by
  cases v <;> simp [Value.plain] at hv <;> simp only [stored, Option.isSome]
  case string s =>
    cases sc.ParseInt s with
    | some vv => rfl
    | none =>
      cases sc.ParseFloat s with
      | some vv => rfl
      | none => rfl

theorem stored_of_not_supported (sc : Strconv) (v : Value) (hv : v.supported = false) :
    stored sc (some v) = none := by
  cases v <;> simp [Value.supported] at hv <;> rfl

theorem GoMap.entry_unique {α : Type} (m : GoMap α) (k : String) (a b : α)
    (hnd : (GoMap.keys m).Nodup) (ha : (k, a) ∈ m) (hb : (k, b) ∈ m) : a = b := by
  have h1 := GoMap.get_of_mem m k a hnd ha
  have h2 := GoMap.get_of_mem m k b hnd hb
  rw [h1] at h2
  exact Option.some.inj h2

/-- Rows without a float column: for every row of N columns with distinct names,
none of them `@timestamp` or `type`, in which one column holds a value of an
unrecognized representation and the other N-1 columns hold text, integer,
byte-sequence or timestamp values, `parseRow` returns no error and publishes one
event whose fields are exactly those N-1 columns and the two header fields:
N+1 fields in all. -/
theorem parseRow_one_unrecognized (env : Env) (rowData : GoMap (Option Value)) (t : Int)
    (m : metric) (w : World) (kb : String) (vb : Value)
    (hnd : (GoMap.keys rowData).Nodup)
    (hts : "@timestamp" ∉ GoMap.keys rowData)
    (hty : "type" ∉ GoMap.keys rowData)
    (hbad : (kb, some vb) ∈ rowData)
    (hvb : vb.supported = false)
    (hrest : ∀ kv ∈ rowData, kv.1 ≠ kb → ∃ v, kv.2 = some v ∧ v.plain = true) :
    (parseRow env rowData (header t m) m w).1 = none ∧
    ∃ ev, (parseRow env rowData (header t m) m w).2.published = w.published ++ [ev] ∧
      List.Perm (GoMap.keys ev) ("@timestamp" :: "type" :: (GoMap.keys rowData).erase kb) ∧
      (GoMap.keys ev).Nodup ∧
      (GoMap.keys ev).length = rowData.length + 1 := by
  have heff := parseRow_effect env rowData (header t m) m w
  refine ⟨heff.1, decodeRow env rowData (header t m), heff.2.1, ?_⟩
  have hfilter : rowData.filter (fun kv => (stored env.strconv kv.2).isSome &&
        decide (kv.1 ∉ GoMap.keys (header t m))) =
      rowData.filter ((fun x => x != kb) ∘ Prod.fst) := by
    apply List.filter_congr
    intro kv hkv
    have hmemk : kv.1 ∈ GoMap.keys rowData := List.mem_map.2 ⟨kv, hkv, rfl⟩
    have hhead : kv.1 ∉ GoMap.keys (header t m) := by
      intro hin
      simp only [header, GoMap.keys, List.map_cons, List.map_nil, List.mem_cons,
        List.mem_singleton, List.not_mem_nil, or_false] at hin
      rcases hin with h | h
      · exact hts (h ▸ hmemk)
      · exact hty (h ▸ hmemk)
    by_cases hkb : kv.1 = kb
    · have hkv' : (kb, kv.2) ∈ rowData := by
        rw [← hkb]; exact hkv
      have hval : kv.2 = some vb := GoMap.entry_unique rowData kb _ _ hnd hkv' hbad
      simp [hval, stored_of_not_supported env.strconv vb hvb, hkb]
    · obtain ⟨v, hv, hplain⟩ := hrest kv hkv hkb
      simp [hv, stored_of_plain env.strconv v hplain, hhead, hkb]
  have hkeys : List.Perm (GoMap.keys (decodeRow env rowData (header t m)))
      ("@timestamp" :: "type" :: (GoMap.keys rowData).erase kb) := by
    have h := decodeRow_keys env rowData (header t m) hnd
    have herase : (GoMap.keys rowData).erase kb =
        List.filter (fun x => x != kb) (List.map Prod.fst rowData) :=
      List.Nodup.erase_eq_filter hnd kb
    rw [hfilter, ← List.filter_map] at h
    rw [herase]
    exact h
  have hkbmem : kb ∈ GoMap.keys rowData := List.mem_map.2 ⟨(kb, some vb), hbad, rfl⟩
  have hndall : ("@timestamp" :: "type" :: (GoMap.keys rowData).erase kb).Nodup := by
    have hsub : ∀ a, a ∈ (GoMap.keys rowData).erase kb → a ∈ GoMap.keys rowData :=
      fun a ha => List.mem_of_mem_erase ha
    refine List.nodup_cons.2 ⟨?_, List.nodup_cons.2 ⟨?_, hnd.erase kb⟩⟩
    · intro hin
      rcases List.mem_cons.1 hin with h | h
      · exact absurd h (by decide)
      · exact hts (hsub _ h)
    · intro hin
      exact hty (hsub _ hin)
  refine ⟨hkeys, (List.Perm.nodup_iff hkeys).2 hndall, ?_⟩
  rw [hkeys.length_eq]
  have hlen : (GoMap.keys rowData).length = rowData.length := by simp [GoMap.keys]
  have hpos : 0 < rowData.length := List.length_pos_of_mem hbad
  simp only [List.length_cons, List.length_erase_of_mem hkbmem, hlen]
  omega

theorem parseRow_one_unrecognized_witness :
    (GoMap.keys ([("DBID", some (Value.string "42")), ("OPEN_MODE", some (Value.bool true)),
        ("STARTED", some (Value.time 5))] : GoMap (Option Value))).Nodup ∧
    (Value.bool true).supported = false ∧
    (parseRow plainEnv
        [("DBID", some (Value.string "42")), ("OPEN_MODE", some (Value.bool true)),
          ("STARTED", some (Value.time 5))]
        (header 7 statusMetric) statusMetric World.start).1 = none ∧
    ∃ ev, (parseRow plainEnv
        [("DBID", some (Value.string "42")), ("OPEN_MODE", some (Value.bool true)),
          ("STARTED", some (Value.time 5))]
        (header 7 statusMetric) statusMetric World.start).2.published
          = World.start.published ++ [ev] ∧
      List.Perm (GoMap.keys ev)
        ("@timestamp" :: "type" ::
          (GoMap.keys ([("DBID", some (Value.string "42")),
            ("OPEN_MODE", some (Value.bool true)),
            ("STARTED", some (Value.time 5))] : GoMap (Option Value))).erase "OPEN_MODE") ∧
      (GoMap.keys ev).Nodup ∧
      (GoMap.keys ev).length =
        ([("DBID", some (Value.string "42")), ("OPEN_MODE", some (Value.bool true)),
          ("STARTED", some (Value.time 5))] : GoMap (Option Value)).length + 1 :=
  ⟨by decide, by decide,
    parseRow_one_unrecognized plainEnv
      [("DBID", some (Value.string "42")), ("OPEN_MODE", some (Value.bool true)),
        ("STARTED", some (Value.time 5))]
      7 statusMetric World.start "OPEN_MODE" (Value.bool true)
      (by decide) (by decide) (by decide) (by decide) (by decide)
      (by
        intro kv hkv hne
        simp only [List.mem_cons, List.mem_singleton, List.not_mem_nil, or_false] at hkv
        rcases hkv with h | h | h
        · subst h
          exact ⟨_, rfl, rfl⟩
        · subst h
          exact absurd rfl hne
        · subst h
          exact ⟨_, rfl, rfl⟩)⟩

/-- C3. At a row of N = 3 columns with distinct names, none of them a header
name, in which `OPEN_MODE` holds a bool (unrecognized) and the other two hold a
float64 (`PCT`) and a text (`STATUS`), `parseRow` returns no error and publishes
one event, but the float64 column takes the `default` case of the type switch as
well: the event has the two header fields and `STATUS` only, three fields where
N+1 = 4 are due. -/
theorem parseRow_float_column_lost :
    (GoMap.keys ([("OPEN_MODE", some (Value.bool true)),
        ("PCT", some (Value.float64 ⟨0x3FF8000000000000⟩)),
        ("STATUS", some (Value.string "OPEN"))] : GoMap (Option Value))).Nodup ∧
    (∀ k ∈ GoMap.keys ([("OPEN_MODE", some (Value.bool true)),
        ("PCT", some (Value.float64 ⟨0x3FF8000000000000⟩)),
        ("STATUS", some (Value.string "OPEN"))] : GoMap (Option Value)),
      k ∉ GoMap.keys (header 7 statusMetric) ∧ k ≠ "timestamp") ∧
    (Value.bool true).supported = false ∧
    (Value.float64 ⟨0x3FF8000000000000⟩).supported = true ∧
    (Value.string "OPEN").supported = true ∧
    (parseRow plainEnv
        [("OPEN_MODE", some (Value.bool true)),
          ("PCT", some (Value.float64 ⟨0x3FF8000000000000⟩)),
          ("STATUS", some (Value.string "OPEN"))]
        (header 7 statusMetric) statusMetric World.start).1 = none ∧
    (parseRow plainEnv
        [("OPEN_MODE", some (Value.bool true)),
          ("PCT", some (Value.float64 ⟨0x3FF8000000000000⟩)),
          ("STATUS", some (Value.string "OPEN"))]
        (header 7 statusMetric) statusMetric World.start).2.published
      = [[("@timestamp", Value.commonTime 7), ("type", Value.string "oracledb_status"),
          ("STATUS", Value.string "OPEN")]] ∧
    LogEntry.convertFailed "PCT" (Value.float64 ⟨0x3FF8000000000000⟩) ∈
      (parseRow plainEnv
        [("OPEN_MODE", some (Value.bool true)),
          ("PCT", some (Value.float64 ⟨0x3FF8000000000000⟩)),
          ("STATUS", some (Value.string "OPEN"))]
        (header 7 statusMetric) statusMetric World.start).2.log := by
  decide

/-! ## The bindings of processMetric -/

theorem GoMap.mem_keys_set {α : Type} (m : GoMap α) (k : String) (v : α) (a : String) :
    a ∈ GoMap.keys (GoMap.set m k v) ↔ a ∈ GoMap.keys m ∨ a = k := by
  rw [GoMap.keys_set]
  by_cases hk : k ∈ GoMap.keys m
  · rw [if_pos hk]
    constructor
    · exact fun h => Or.inl h
    · rintro (h | h)
      · exact h
      · exact h ▸ hk
  · rw [if_neg hk]
    simp

theorem GoMap.keys_set_nodup {α : Type} (m : GoMap α) (k : String) (v : α)
    (hnd : (GoMap.keys m).Nodup) : (GoMap.keys (GoMap.set m k v)).Nodup := by
  rw [GoMap.keys_set]
  by_cases hk : k ∈ GoMap.keys m
  · rw [if_pos hk]
    exact hnd
  · rw [if_neg hk]
    exact List.Nodup.append hnd (List.nodup_singleton k) (by simpa using hk)

theorem bindLoop_keys (l : List (Nat × String)) (m0 : GoMap Nat)
    (hnd : (GoMap.keys m0).Nodup) :
    (GoMap.keys (l.foldl (fun rowData ic => GoMap.set rowData ic.2 ic.1) m0)).Nodup ∧
    ∀ a, a ∈ GoMap.keys (l.foldl (fun rowData ic => GoMap.set rowData ic.2 ic.1) m0) →
      a ∈ GoMap.keys m0 ∨ a ∈ l.map Prod.snd := by
  induction l generalizing m0 with
  | nil => exact ⟨hnd, fun a h => Or.inl h⟩
  | cons ic l ih =>
    obtain ⟨h1, h2⟩ := ih (GoMap.set m0 ic.2 ic.1) (GoMap.keys_set_nodup m0 ic.2 ic.1 hnd)
    refine ⟨h1, fun a ha => ?_⟩
    rcases h2 a ha with h | h
    · rcases (GoMap.mem_keys_set m0 ic.2 ic.1 a).1 h with h' | h'
      · exact Or.inl h'
      · exact Or.inr (by simp [h'])
    · exact Or.inr (by simp only [List.map_cons, List.mem_cons]; exact Or.inr h)

/-- The map `rowData` has each column name once, and only column names. -/
theorem bindColumns_keys (colNames : List String) :
    (GoMap.keys (bindColumns colNames)).Nodup ∧
    ∀ a, a ∈ GoMap.keys (bindColumns colNames) → a ∈ colNames := by
  obtain ⟨h1, h2⟩ := bindLoop_keys colNames.enum [] (by simp [GoMap.keys])
  refine ⟨h1, fun a ha => ?_⟩
  rcases h2 a ha with h | h
  · simp [GoMap.keys] at h
  · simpa [List.enum_map_snd] using h

theorem deref_keys (rowData : GoMap Nat) (cells : List Value) :
    GoMap.keys (deref rowData cells) = GoMap.keys rowData := by
  simp [deref, GoMap.keys, List.map_map, Function.comp_def]

/-! ## processMetric -/

theorem processRows_nil (env : Env) (m : metric) (rowData : GoMap Nat) (n : Nat) (w : World) :
    processRows env m rowData n [] w = (none, w) := rfl

/-- One turn of the row loop on a row that scans: the event of the row is
published, and the loop goes on. -/
theorem processRows_cons_ok (env : Env) (m : metric) (rowData : GoMap Nat) (n : Nat)
    (cells : List Value) (rs : List (Except Error (List Value))) (w : World)
    (hlen : cells.length = n) :
    processRows env m rowData n (Except.ok cells :: rs) w =
      processRows env m rowData n rs
        (parseRow env (deref rowData cells) (header (env.now w.nowCalls) m) m
          { w with nowCalls := w.nowCalls + 1 }).2 := by
  have h1 := (parseRow_effect env (deref rowData cells) (header (env.now w.nowCalls) m) m
    { w with nowCalls := w.nowCalls + 1 }).1
  simp only [processRows, scan, hlen, if_true, header] at h1 ⊢
  rw [h1]

/-- The row loop only adds: events to the sink, each the decoding of some cells
under a header of the metric; entries to the log; nothing to the queries. -/
theorem processRows_effect (env : Env) (m : metric) (rowData : GoMap Nat) (n : Nat)
    (rows : List (Except Error (List Value))) (w : World) :
    (∃ evs, (processRows env m rowData n rows w).2.published = w.published ++ evs ∧
      ∀ ev ∈ evs, ∃ cells t, ev = decodeRow env (deref rowData cells) (header t m)) ∧
    (processRows env m rowData n rows w).2.queried = w.queried ∧
    ∃ d, (processRows env m rowData n rows w).2.log = w.log ++ d := by
  induction rows generalizing w with
  | nil => exact ⟨⟨[], by simp [processRows_nil], by simp⟩, rfl, [], by simp [processRows_nil]⟩
  | cons r rs ih =>
    cases r with
    | error e =>
      have : processRows env m rowData n (Except.error e :: rs) w = (some e, w) := by
        simp [processRows, scan]
      rw [this]
      exact ⟨⟨[], by simp, by simp⟩, rfl, [], by simp⟩
    | ok cells =>
      by_cases hlen : cells.length = n
      · rw [processRows_cons_ok env m rowData n cells rs w hlen]
        obtain ⟨_, hp, hq, _, d1, hd1⟩ := parseRow_effect env (deref rowData cells)
          (header (env.now w.nowCalls) m) m { w with nowCalls := w.nowCalls + 1 }
        obtain ⟨⟨evs, he, hall⟩, hq2, d2, hd2⟩ := ih (parseRow env (deref rowData cells)
          (header (env.now w.nowCalls) m) m { w with nowCalls := w.nowCalls + 1 }).2
        refine ⟨⟨decodeRow env (deref rowData cells) (header (env.now w.nowCalls) m) :: evs,
          ?_, ?_⟩, ?_, d1 ++ d2, ?_⟩
        · rw [he, hp]; simp
        · intro ev hev
          rcases List.mem_cons.1 hev with h | h
          · exact ⟨cells, env.now w.nowCalls, h⟩
          · exact hall ev h
        · rw [hq2, hq]
        · rw [hd2, hd1]; simp
      · have : processRows env m rowData n (Except.ok cells :: rs) w =
            (some "sql: wrong number of destination arguments in Scan", w) := by
          simp [processRows, scan, hlen]
        rw [this]
        exact ⟨⟨[], by simp, by simp⟩, rfl, [], by simp⟩

/-- When every row scans, the row loop returns no error and publishes the event
of each row, in the order of the rows, with one clock reading per row. -/
theorem processRows_all_scanned (env : Env) (m : metric) (rowData : GoMap Nat) (n : Nat)
    (rowVals : List (List Value)) (w : World)
    (hlen : ∀ cells ∈ rowVals, cells.length = n) :
    (processRows env m rowData n (rowVals.map Except.ok) w).1 = none ∧
    (processRows env m rowData n (rowVals.map Except.ok) w).2.published =
      w.published ++ (rowVals.enumFrom w.nowCalls).map
        (fun ic => decodeRow env (deref rowData ic.2) (header (env.now ic.1) m)) := by
  induction rowVals generalizing w with
  | nil => exact ⟨rfl, by simp [processRows_nil]⟩
  | cons cells rs ih =>
    have hc : cells.length = n := hlen cells (List.mem_cons_self _ _)
    have hrs : ∀ c ∈ rs, c.length = n := fun c hcm => hlen c (List.mem_cons_of_mem _ hcm)
    rw [List.map_cons, processRows_cons_ok env m rowData n cells _ w hc]
    obtain ⟨_, hp, _, hn, _⟩ := parseRow_effect env (deref rowData cells)
      (header (env.now w.nowCalls) m) m { w with nowCalls := w.nowCalls + 1 }
    obtain ⟨h1, h2⟩ := ih (parseRow env (deref rowData cells)
      (header (env.now w.nowCalls) m) m { w with nowCalls := w.nowCalls + 1 }).2 hrs
    refine ⟨h1, ?_⟩
    rw [h2, hp, hn]
    simp [List.enumFrom_cons]

/-- What `processMetric` does when the query succeeds. -/
theorem processMetric_ok (env : Env) (m : metric) (w : World) (qr : QueryResult)
    (hq : env.query w.queried.length m.sql = Except.ok qr) :
    processMetric env m w =
      processRows env m (bindColumns qr.columns) qr.columns.length qr.rows
        { w with queried := w.queried ++ [m.sql] } := by
  simp only [processMetric, hq]

/-- What `processMetric` does when the query fails. -/
theorem processMetric_error (env : Env) (m : metric) (w : World) (e : Error)
    (hq : env.query w.queried.length m.sql = Except.error e) :
    processMetric env m w = (some e, { w with queried := w.queried ++ [m.sql] }) := by
  simp only [processMetric, hq]

/-- The footprint of `processMetric`: one query, that of the metric; new events
and log entries only after the old ones; each new event is the decoding of some
cells under a header of the metric. -/
theorem processMetric_effect (env : Env) (m : metric) (w : World) :
    (processMetric env m w).2.queried = w.queried ++ [m.sql] ∧
    (∃ d, (processMetric env m w).2.log = w.log ++ d) ∧
    ∃ evs, (processMetric env m w).2.published = w.published ++ evs ∧
      ∀ ev ∈ evs, ∃ qr cells t, env.query w.queried.length m.sql = Except.ok qr ∧
        ev = decodeRow env (deref (bindColumns qr.columns) cells) (header t m) := by
  cases hq : env.query w.queried.length m.sql with
  | error e =>
    rw [processMetric_error env m w e hq]
    exact ⟨rfl, ⟨[], by simp⟩, [], by simp, by simp⟩
  | ok qr =>
    rw [processMetric_ok env m w qr hq]
    obtain ⟨⟨evs, he, hall⟩, hq2, d, hd⟩ := processRows_effect env m (bindColumns qr.columns)
      qr.columns.length qr.rows { w with queried := w.queried ++ [m.sql] }
    refine ⟨hq2, ⟨d, hd⟩, evs, he, fun ev hev => ?_⟩
    obtain ⟨cells, t, h⟩ := hall ev hev
    exact ⟨qr, cells, t, rfl, h⟩

/-- C4 (as amended). Every event that `processMetric` hands to the sink has a
`type` field equal to the name of the metric whose query produced the row, and so
to a name in the catalog `metrics`, for every result set that has no column named
`type`, whatever its other column names and its column values are. -/
theorem processMetric_type_field (env : Env) (m : metric) (w : World)
    (hcat : m ∈ metrics)
    (hcols : ∀ qr, env.query w.queried.length m.sql = Except.ok qr → "type" ∉ qr.columns) :
    ∃ evs, (processMetric env m w).2.published = w.published ++ evs ∧
      ∀ ev ∈ evs, GoMap.get ev "type" = some (Value.string m.name) ∧
        ∃ m' ∈ metrics, GoMap.get ev "type" = some (Value.string m'.name) := by
  obtain ⟨_, _, evs, he, hall⟩ := processMetric_effect env m w
  refine ⟨evs, he, fun ev hev => ?_⟩
  obtain ⟨qr, cells, t, hq, hev'⟩ := hall ev hev
  have hkeys := bindColumns_keys qr.columns
  have hnd : (GoMap.keys (deref (bindColumns qr.columns) cells)).Nodup := by
    rw [deref_keys]; exact hkeys.1
  have hnot : "type" ∉ GoMap.keys (deref (bindColumns qr.columns) cells) := by
    rw [deref_keys]
    exact fun hin => hcols qr hq (hkeys.2 _ hin)
  have hget : GoMap.get ev "type" = some (Value.string m.name) := by
    rw [hev', decodeRow_get env _ _ hnd "type", (GoMap.get_eq_none_iff _ _).2 hnot]
    simp [header, GoMap.get]
  exact ⟨hget, m, hcat, hget⟩

theorem processMetric_type_field_witness :
    statusMetric ∈ metrics ∧
    ∃ evs, (processMetric (mkEnv (fun _ _ => true) (constQuery statusResult)) statusMetric
        World.start).2.published = World.start.published ++ evs ∧
      ∀ ev ∈ evs, GoMap.get ev "type" = some (Value.string statusMetric.name) ∧
        ∃ m' ∈ metrics, GoMap.get ev "type" = some (Value.string m'.name) :=
  ⟨by decide,
    processMetric_type_field (mkEnv (fun _ _ => true) (constQuery statusResult)) statusMetric
      World.start (by decide)
      (by
        intro qr hq
        have h : qr = statusResult := (Except.ok.inj hq).symm
        rw [h]
        decide)⟩

/-- A result set with a column named `type` (here holding the text `custom`):
the column overwrites the header field, and the published event has a `type`
that is not the name of the metric nor any name of the catalog. -/
theorem processMetric_type_overwritten :
    (processMetric (mkEnv (fun _ _ => true) (constQuery typeResult)) statusMetric
        World.start).2.published
      = [[("@timestamp", Value.commonTime 0), ("type", Value.string "custom")]] ∧
    statusMetric ∈ metrics ∧
    "custom" ≠ statusMetric.name ∧
    "custom" ∉ metrics.map metric.name := by
  decide

/-- When the query succeeds and every row scans, `processMetric` returns no error
and publishes the event of each row, in the order of the rows. -/
theorem processMetric_all_scanned (env : Env) (m : metric) (w : World)
    (colNames : List String) (rowVals : List (List Value))
    (hq : env.query w.queried.length m.sql =
      Except.ok { columns := colNames, rows := rowVals.map Except.ok })
    (hlen : ∀ cells ∈ rowVals, cells.length = colNames.length) :
    (processMetric env m w).1 = none ∧
    (processMetric env m w).2.published =
      w.published ++ (rowVals.enumFrom w.nowCalls).map
        (fun ic => rowEvent env m colNames (env.now ic.1) ic.2) := by
  rw [processMetric_ok env m w _ hq]
  exact processRows_all_scanned env m (bindColumns colNames) colNames.length
    rowVals { w with queried := w.queried ++ [m.sql] } hlen

/-- C9. For every result set of n rows that all scan and every behaviour of the
sink, `processMetric` returns no error and calls `PublishEvent` exactly n times,
once per row in the order of the result set, each time with the event of that
row; `parseRow` never returns an error either. -/
theorem processMetric_publishes_every_row (env : Env) (m : metric) (w : World)
    (colNames : List String) (rowVals : List (List Value))
    (hq : env.query w.queried.length m.sql =
      Except.ok { columns := colNames, rows := rowVals.map Except.ok })
    (hlen : ∀ cells ∈ rowVals, cells.length = colNames.length) :
    (processMetric env m w).1 = none ∧
    (processMetric env m w).2.published =
      w.published ++ (rowVals.enumFrom w.nowCalls).map
        (fun ic => rowEvent env m colNames (env.now ic.1) ic.2) ∧
    (processMetric env m w).2.published.length = w.published.length + rowVals.length ∧
    ∀ rowData row w', (parseRow env rowData row m w').1 = none := by
  obtain ⟨h1, h2⟩ := processMetric_all_scanned env m w colNames rowVals hq hlen
  refine ⟨h1, h2, ?_, fun rowData row w' => (parseRow_effect env rowData row m w').1⟩
  rw [h2]
  simp

theorem processMetric_publishes_every_row_witness :
    (∀ cells ∈ twoRows, cells.length = ["DBID", "STATUS"].length) ∧
    flakyPublish 0 [] = false ∧
    (processMetric (mkEnv flakyPublish (constQuery twoRowsResult)) statusMetric
      World.start).2.published.length = World.start.published.length + twoRows.length :=
  ⟨by decide, by decide,
    (processMetric_publishes_every_row (mkEnv flakyPublish (constQuery twoRowsResult))
      statusMetric World.start ["DBID", "STATUS"] twoRows rfl (by decide)).2.2.1⟩

/-! ## The end-to-end scenario -/

/-- The map `rowData` of the scenario after `Scan`. -/
theorem status_rowData :
    deref (bindColumns ["DBID", "STATUS"]) [Value.string "123", Value.string "OPEN"] =
      [("DBID", some (Value.string "123")), ("STATUS", some (Value.string "OPEN"))] := by
  decide

/-- C7 (as amended). End to end: when the query of a metric returns exactly one
row with the columns `DBID` = text `123` and `STATUS` = text `OPEN`,
`processMetric` returns no error and publishes exactly one event, whose fields
are exactly `DBID` = the int64 123, `STATUS` = the text `OPEN`, `type` = the name
of the metric and `@timestamp` = the capture time: these four names, with the
column names in the letter case the database gave them. -/
theorem processMetric_status_row (env : Env) (m : metric) (w : World)
    (hsc : env.strconv = goStrconv)
    (hq : env.query w.queried.length m.sql = Except.ok statusResult) :
    (processMetric env m w).1 = none ∧
    ∃ ev, (processMetric env m w).2.published = w.published ++ [ev] ∧
      List.Perm (GoMap.keys ev) ["@timestamp", "type", "DBID", "STATUS"] ∧
      GoMap.get ev "DBID" = some (Value.int64 123) ∧
      GoMap.get ev "STATUS" = some (Value.string "OPEN") ∧
      GoMap.get ev "type" = some (Value.string m.name) ∧
      GoMap.get ev "@timestamp" = some (Value.commonTime (env.now w.nowCalls)) := by
  have hq' : env.query w.queried.length m.sql = Except.ok
      { columns := ["DBID", "STATUS"],
        rows := [[Value.string "123", Value.string "OPEN"]].map Except.ok } := hq
  obtain ⟨h1, h2⟩ := processMetric_all_scanned env m w ["DBID", "STATUS"]
    [[Value.string "123", Value.string "OPEN"]] hq' (by decide)
  refine ⟨h1, rowEvent env m ["DBID", "STATUS"] (env.now w.nowCalls)
    [Value.string "123", Value.string "OPEN"], ?_, ?_⟩
  · rw [h2]; rfl
  have hnd : (GoMap.keys ([("DBID", some (Value.string "123")),
      ("STATUS", some (Value.string "OPEN"))] : GoMap (Option Value))).Nodup := by decide
  have hs1 : stored goStrconv (some (Value.string "123")) = some (Value.int64 123) := by decide
  have hs2 : stored goStrconv (some (Value.string "OPEN")) = some (Value.string "OPEN") := by
    decide
  rw [rowEvent, status_rowData]
  refine ⟨?_, ?_, ?_, ?_, ?_⟩
  · have hk := decodeRow_keys env _ (header (env.now w.nowCalls) m) hnd
    rw [hsc] at hk
    simpa [List.filter_cons, hs1, hs2, header, GoMap.keys] using hk
  · rw [decodeRow_get env _ _ hnd "DBID", hsc]
    simp [GoMap.get, hs1]
  · rw [decodeRow_get env _ _ hnd "STATUS", hsc]
    simp [GoMap.get, hs2]
  · rw [decodeRow_get env _ _ hnd "type"]
    simp [GoMap.get, header]
  · rw [decodeRow_get env _ _ hnd "@timestamp"]
    simp [GoMap.get, header]

theorem processMetric_status_row_witness :
    (processMetric (mkEnv (fun _ _ => true) (constQuery statusResult)) statusMetric
      World.start).1 = none ∧
    ∃ ev, (processMetric (mkEnv (fun _ _ => true) (constQuery statusResult)) statusMetric
        World.start).2.published = World.start.published ++ [ev] ∧
      List.Perm (GoMap.keys ev) ["@timestamp", "type", "DBID", "STATUS"] ∧
      GoMap.get ev "DBID" = some (Value.int64 123) ∧
      GoMap.get ev "STATUS" = some (Value.string "OPEN") ∧
      GoMap.get ev "type" = some (Value.string statusMetric.name) ∧
      GoMap.get ev "@timestamp" = some (Value.commonTime
        ((mkEnv (fun _ _ => true) (constQuery statusResult)).now World.start.nowCalls)) :=
  processMetric_status_row (mkEnv (fun _ _ => true) (constQuery statusResult)) statusMetric
    World.start rfl rfl

/-- In the scenario the one published event has the fields `@timestamp`, `type`,
`DBID` and `STATUS`: it has no field named `dbid`, `status` or `timestamp`. -/
theorem processMetric_status_row_names :
    (processMetric (mkEnv (fun _ _ => true) (constQuery statusResult)) statusMetric
        World.start).2.published
      = [[("@timestamp", Value.commonTime 0), ("type", Value.string "oracledb_status"),
          ("DBID", Value.int64 123), ("STATUS", Value.string "OPEN")]] ∧
    (processMetric (mkEnv (fun _ _ => true) (constQuery statusResult)) statusMetric
        World.start).2.published.map
          (fun ev => (GoMap.get ev "dbid", GoMap.get ev "status", GoMap.get ev "timestamp"))
      = [(none, none, none)] := by
  decide

/-! ## dbworker -/

/-- One turn of the loop over the catalog: `processMetric` runs once, its query is
the only new query, the log only grows, and a failed query is logged under the
name of the metric. -/
theorem dbworkerLoop_cons (env : Env) (m : metric) (ms : List metric) (w : World) :
    ∃ w1, dbworkerLoop env (m :: ms) w = dbworkerLoop env ms w1 ∧
      w1.queried = w.queried ++ [m.sql] ∧
      (∃ d, w1.log = w.log ++ d) ∧
      ∀ e, env.query w.queried.length m.sql = Except.error e →
        LogEntry.metricFailed m.name e ∈ w1.log := by
  obtain ⟨hq, ⟨d, hd⟩, _⟩ := processMetric_effect env m w
  cases hres : (processMetric env m w).1 with
  | none =>
    refine ⟨(processMetric env m w).2, ?_, hq, ⟨d, hd⟩, fun e he => ?_⟩
    · simp only [dbworkerLoop, hres]
    · rw [processMetric_error env m w e he] at hres
      simp at hres
  | some e0 =>
    refine ⟨{ (processMetric env m w).2 with
        log := (processMetric env m w).2.log ++ [LogEntry.metricFailed m.name e0] },
      ?_, hq, ⟨d ++ [LogEntry.metricFailed m.name e0], by simp [hd]⟩, fun e he => ?_⟩
    · simp only [dbworkerLoop, hres]
    · rw [processMetric_error env m w e he] at hres
      have : e0 = e := by simpa using hres.symm
      simp [this]

theorem dbworkerLoop_effect (env : Env) (catalog : List metric) (w : World) :
    (dbworkerLoop env catalog w).queried = w.queried ++ catalog.map metric.sql ∧
    (∃ d, (dbworkerLoop env catalog w).log = w.log ++ d) ∧
    ∀ i mm e, catalog[i]? = some mm →
      env.query (w.queried.length + i) mm.sql = Except.error e →
      LogEntry.metricFailed mm.name e ∈ (dbworkerLoop env catalog w).log := by
  induction catalog generalizing w with
  | nil =>
    refine ⟨by simp [dbworkerLoop], ⟨[], by simp [dbworkerLoop]⟩, fun i mm e h => ?_⟩
    simp at h
  | cons m ms ih =>
    obtain ⟨w1, hstep, hq1, ⟨d1, hd1⟩, hfail⟩ := dbworkerLoop_cons env m ms w
    obtain ⟨hq2, ⟨d2, hd2⟩, hrep⟩ := ih w1
    rw [hstep]
    refine ⟨?_, ⟨d1 ++ d2, ?_⟩, fun i mm e hi he => ?_⟩
    · rw [hq2, hq1]; simp
    · rw [hd2, hd1]; simp
    · cases i with
      | zero =>
        have hmm : m = mm := by simpa using hi
        subst hmm
        have hin := hfail e (by simpa using he)
        rw [hd2]
        exact List.mem_append_left _ hin
      | succ j =>
        have hj : ms[j]? = some mm := by simpa using hi
        apply hrep j mm e hj
        rw [hq1]
        have : (w.queried ++ [m.sql]).length + j = w.queried.length + (j + 1) := by
          simp; omega
        rw [this]
        exact he

/-- C8. For every catalog and every pattern of query failures, `dbworker` returns
no error and runs the query of every metric exactly once, in catalog order; a
query that fails for a metric is logged as an error of that metric, and the
queries of the later metrics are still run. -/
theorem dbworker_runs_every_metric (env : Env) (catalog : List metric) (w : World) :
    (dbworker env catalog w).1 = none ∧
    (dbworker env catalog w).2.queried = w.queried ++ catalog.map metric.sql ∧
    ∀ i mm e, catalog[i]? = some mm →
      env.query (w.queried.length + i) mm.sql = Except.error e →
      LogEntry.metricFailed mm.name e ∈ (dbworker env catalog w).2.log := by
  obtain ⟨h1, _, h3⟩ := dbworkerLoop_effect env catalog w
  exact ⟨rfl, h1, h3⟩

theorem dbworker_runs_every_metric_witness :
    (dbworker (mkEnv (fun _ _ => true) firstFails) twoMetrics World.start).2.queried
      = World.start.queried ++ twoMetrics.map metric.sql ∧
    LogEntry.metricFailed "sessions" "ORA-00942: table or view does not exist" ∈
      (dbworker (mkEnv (fun _ _ => true) firstFails) twoMetrics World.start).2.log ∧
    (dbworker (mkEnv (fun _ _ => true) firstFails) twoMetrics World.start).2.published.length
      = 1 :=
  ⟨(dbworker_runs_every_metric (mkEnv (fun _ _ => true) firstFails) twoMetrics
      World.start).2.1,
    (dbworker_runs_every_metric (mkEnv (fun _ _ => true) firstFails) twoMetrics
      World.start).2.2 0 ⟨"sessions", "SELECT count(*) n FROM v$session"⟩
      "ORA-00942: table or view does not exist" rfl rfl,
    by decide⟩

/-! ## gather -/

theorem Getenv_Setenv_ne (environ : Environ) (k k' v : String) (h : k ≠ k') :
    Getenv (Setenv environ k v) k' = Getenv environ k' := by
  simp only [Getenv, Setenv, GoMap.get_set_ne environ k k' v h]

/-- C10 (as amended). In `gather`, whenever the configured target list is nil, as
in `DefaultConfig`, a worker is launched for exactly one target, the descriptor
read from the environment variable `DATA_SOURCE_NAME`; whenever the list is not
nil, exactly one worker is launched per listed target, in order, and the
environment descriptor is not used. -/
theorem gather_targets (config : Config) (environ : Environ) :
    (gather config environ).err = none ∧
    (config.OciURLs = none →
      (gather config environ).launched = [Getenv environ "DATA_SOURCE_NAME"]) ∧
    (∀ urls, config.OciURLs = some urls → (gather config environ).launched = urls) := by
  refine ⟨rfl, fun h => ?_, fun urls h => ?_⟩
  · simp only [gather, h, if_true, goAppend, sliceElems]
    rw [Getenv_Setenv_ne environ "NLS_LANG" "DATA_SOURCE_NAME" _ (by decide)]
  · simp [gather, h, sliceElems]

theorem gather_targets_witness :
    DefaultConfig.OciURLs = none ∧
    (gather DefaultConfig [("DATA_SOURCE_NAME", "system/manager@db1")]).launched
      = ["system/manager@db1"] ∧
    (gather { Period := 10, OciURLs := some ["a@db1", "b@db2"] }
        [("DATA_SOURCE_NAME", "system/manager@db1")]).launched = ["a@db1", "b@db2"] :=
  ⟨rfl,
    (gather_targets DefaultConfig [("DATA_SOURCE_NAME", "system/manager@db1")]).2.1 rfl,
    (gather_targets { Period := 10, OciURLs := some ["a@db1", "b@db2"] }
      [("DATA_SOURCE_NAME", "system/manager@db1")]).2.2 _ rfl⟩

/-- A target list of length zero that is not nil has no elements, yet `gather`
does not fall back to `DATA_SOURCE_NAME`: no worker is launched at all. -/
theorem gather_empty_list_no_fallback :
    sliceElems (some []) = [] ∧
    (gather { Period := 10 * 1000000000, OciURLs := some [] }
        [("DATA_SOURCE_NAME", "system/manager@db1")]).launched = [] ∧
    (gather { Period := 10 * 1000000000, OciURLs := some [] }
        [("DATA_SOURCE_NAME", "system/manager@db1")]).launched
      ≠ [Getenv [("DATA_SOURCE_NAME", "system/manager@db1")] "DATA_SOURCE_NAME"] := by
  decide

end Oracledbbeat
